import Mathlib

/-!
Shallow embedding of the vaspvis band-structure core (`vaspvis/band.py`,
class `BandStructure`) and proofs about its specification.

Numbers are modelled as `ℚ` (plain rational arithmetic in place of IEEE
floats; every claim proved here is about index bookkeeping, summation and
control flow, none about rounding).  Pandas `DataFrame`s keyed by column
label are modelled as association lists from column keys to column value
lists; python exceptions are modelled with `Option` (a raised exception
becomes `none`).
-/

namespace Vaspvis

/-- Python slice `xs[i:]` semantics: a negative start counts from the end,
clamped to the list bounds. -/
def pySliceFrom (i : ℤ) (xs : List α) : List α :=
  if i < 0 then xs.drop (Int.toNat ((xs.length : ℤ) + i)) else xs.drop (Int.toNat i)

/-- A k-point coordinate triple (rows of `KPOINTS`/`vasprun.actual_kpoints`). -/
abbrev Point : Type := ℚ × ℚ × ℚ

/-- The two pymatgen spin channels (`Spin.up` / `Spin.down`). -/
inductive SpinCh where
  | up
  | down
deriving DecidableEq

/-- A pandas DataFrame column key: either an integer label (orbital index
columns 0..8) or a string label (the derived 's','p','d' columns). -/
inductive ColKey where
  | num (n : ℕ)
  | str (s : String)
deriving DecidableEq

/-- A pandas DataFrame, modelled as an ordered association list from column
key to the column's values (one value per row / k-point).  Duplicate keys
are allowed (they arise from `pd.concat(axis=1)`). -/
abbrev DFrame : Type := List (ColKey × List ℚ)

/-- Column keys of a frame, in order (`df.columns`). -/
def dfKeys (df : DFrame) : List ColKey := df.map (fun kv => kv.1)

/-- Column lookup `df[k]`: the first column with the given label
(empty list if absent). -/
def dfColD (df : DFrame) (k : ColKey) : List ℚ :=
  ((df.find? (fun kv => decide (kv.1 = k))).map (fun kv => kv.2)).getD []

/-- Elementwise sum of two columns, missing entries counting as 0.  This is
the row alignment performed by `DataFrame.add(..., fill_value=0)` for
integer-range row indices. -/
def addPad : List ℚ → List ℚ → List ℚ
  | [], ys => ys
  | a :: xs, [] => a :: xs
  | a :: xs, b :: ys => (a + b) :: addPad xs ys

/-- `x.add(y, fill_value=0)`: columns are the union of both key sets
(`x`'s keys first, then `y`'s new keys), each summed with 0-fill. -/
def dfAdd (x y : DFrame) : DFrame :=
  (dfKeys x ++ (dfKeys y).filter (fun k => decide (k ∉ dfKeys x))).map
    (fun k => (k, addPad (dfColD x k) (dfColD y k)))

/-- Column assignment `df[k] = v`: replaces an existing column of that
label, otherwise appends a new column at the end. -/
def dfSet (df : DFrame) (k : ColKey) (v : List ℚ) : DFrame :=
  if df.any (fun kv => decide (kv.1 = k)) then
    df.map (fun kv => if kv.1 = k then (k, v) else kv)
  else df ++ [(k, v)]

/-- Pandas `Series` addition `df[a] + df[b]` on two columns sharing one
row index (the only way it is used in the source). -/
def seriesAdd (a b : List ℚ) : List ℚ := List.zipWith (fun x y => x + y) a b

/-- `functools.reduce(lambda x, y: x.add(y, fill_value=0), frames)`:
left fold of `dfAdd` over a non-empty frame list.  A singleton list is
returned as-is — in python this is the *same object*, which is what makes
the in-place column assignments of `sum_spd` observable (see `sum_spd`). -/
def dfFold : List DFrame → DFrame
  | [] => []
  | f :: t => t.foldl dfAdd f

/-- The assignment `df['s'] = df[0]` of `sum_spd`. -/
def spdFoldS (df : DFrame) : DFrame :=
  dfSet df (ColKey.str ("s")) (dfColD df (ColKey.num 0))

/-- The assignment `df['p'] = df[1] + df[2] + df[3]` of `sum_spd`
(reading from the current frame). -/
def spdFoldP (df : DFrame) : DFrame :=
  dfSet df (ColKey.str ("p"))
    (seriesAdd (seriesAdd (dfColD df (ColKey.num 1)) (dfColD df (ColKey.num 2)))
      (dfColD df (ColKey.num 3)))

/-- The assignment `df['d'] = df[4] + df[5] + df[6] + df[7] + df[8]` of
`sum_spd` (reading from the current frame). -/
def spdFoldD (df : DFrame) : DFrame :=
  dfSet df (ColKey.str ("d"))
    (seriesAdd (seriesAdd (seriesAdd (seriesAdd (dfColD df (ColKey.num 4))
      (dfColD df (ColKey.num 5))) (dfColD df (ColKey.num 6)))
      (dfColD df (ColKey.num 7))) (dfColD df (ColKey.num 8)))

/-- The three family-column assignments of `sum_spd` / `sum_elements(spd=True)`:
`df['s'] = df[0]`, `df['p'] = df[1]+df[2]+df[3]`,
`df['d'] = df[4]+df[5]+df[6]+df[7]+df[8]`, performed in that order on one
frame (in python these mutate the frame object in place). -/
def spdFold (df : DFrame) : DFrame := spdFoldD (spdFoldP (spdFoldS df))

/-- `df.drop(columns=range(9))`: removes the integer columns 0..8, keeping
every other column (the source only applies it to frames that contain all
of 0..8, so the KeyError branch of pandas `drop` is unreachable). -/
def dfDropOrb (df : DFrame) : DFrame :=
  df.filter (fun kv => match kv.1 with
    | ColKey.num o => decide (9 ≤ o)
    | ColKey.str _ => true)

/-- Number of rows of a frame (length of its pandas row index: all columns
of a loaded frame have equal length; for concatenated frames pandas uses
the union index, i.e. the maximum length). -/
def dfRowCount (df : DFrame) : ℕ :=
  df.foldr (fun kv m => max kv.2.length m) 0

/-- `df.sum(axis=1)`: per row, the sum over all columns (duplicate column
labels included). -/
def dfSumAxis1 (df : DFrame) : List ℚ :=
  (List.range (dfRowCount df)).map (fun i => (df.map (fun kv => kv.2.getD i 0)).sum)

/-- Order-preserving first-occurrence deduplication (python `dict` key
semantics), with an accumulator of keys already seen. -/
def firstDedupAux [DecidableEq α] : List α → List α → List α
  | [], _ => []
  | a :: l, seen =>
    if a ∈ seen then firstDedupAux l seen else a :: firstDedupAux l (a :: seen)

/-- Order-preserving first-occurrence deduplication (python `dict` keys). -/
def firstDedup [DecidableEq α] (l : List α) : List α := firstDedupAux l []

/-- Sort order used by pandas `groupby` on column keys (integer labels by
value; the string labels never reach `groupby` in the source). -/
def keyLE : ColKey → ColKey → Bool
  | ColKey.num a, ColKey.num b => decide (a ≤ b)
  | ColKey.num _, ColKey.str _ => true
  | ColKey.str _, ColKey.num _ => false
  | ColKey.str a, ColKey.str b => decide (a < b) || decide (a = b)

/-- Insertion into a `keyLE`-sorted list. -/
def insertKey (x : ColKey) : List ColKey → List ColKey
  | [] => [x]
  | y :: l => if keyLE x y then x :: y :: l else y :: insertKey x l

/-- Insertion sort of column keys by `keyLE`. -/
def sortKeys : List ColKey → List ColKey
  | [] => []
  | x :: l => insertKey x (sortKeys l)

/-- `df.groupby(by=df.columns, axis=1).sum()`: one output column per
distinct label, in sorted label order, each the 0-fill sum of all columns
carrying that label. -/
def dfGroupSum (df : DFrame) : DFrame :=
  (sortKeys (firstDedup (dfKeys df))).map
    (fun k => (k, df.foldl (fun acc kv => if kv.1 = k then addPad acc kv.2 else acc) []))

/-- The raw arrays the class reads from `vasprun.xml` / `POSCAR` /
`KPOINTS` (the external Data Source). -/
structure VaspData where
  eigen_up : List (List (ℚ × ℚ))
  eigen_down : List (List (ℚ × ℚ))
  proj_up : List (List (List (List ℚ)))
  proj_down : List (List (List (List ℚ)))
  efermi : ℚ
  natoms : List ℕ
  site_symbols : List String
  kpts : List Point
  kpts_labels : List String
  actual_kpoints : List Point
deriving DecidableEq

/-- The `BandStructure` instance fields relevant to the core (set in
`__init__`). -/
structure Session where
  data : VaspData
  projected : Bool
  hse : Bool
  kpath : String
  n : ℕ
  spin : String
deriving DecidableEq

/-- `self.spin_dict = {'up': Spin.up, 'dowm': Spin.down}` — note the
misspelt `'dowm'` key, kept faithfully; lookup of an absent key is a
python `KeyError`, modelled as `none`. -/
def spin_dict (s : String) : Option SpinCh :=
  if s = "up" then some SpinCh.up
  else if s = "dowm" then some SpinCh.down
  else none

/-- `__init__`: stores the constructor arguments, except that line 48 of
the source sets `self.spin = 'up'` unconditionally, discarding the `spin`
argument. -/
def mkSession (d : VaspData) (projected hse : Bool) (spin kpath : String) (n : ℕ) :
    Session :=
  { data := d, projected := projected, hse := hse, kpath := kpath, n := n,
    spin := "up" }

/-- `self.vasprun.eigenvalues[channel]`. -/
def eigenOf (d : VaspData) : SpinCh → List (List (ℚ × ℚ))
  | SpinCh.up => d.eigen_up
  | SpinCh.down => d.eigen_down

/-- `self.vasprun.projected_eigenvalues[channel]`. -/
def projOf (d : VaspData) : SpinCh → List (List (List (List ℚ)))
  | SpinCh.up => d.proj_up
  | SpinCh.down => d.proj_down

/-- `load_bands` lines 83-89: spin-channel selection followed by the
hybrid trailing-window slice `[-1 * self.n * (len(self.kpath) - 1):]`
when `hse`, the raw axis unchanged otherwise. -/
def selected_eigenvalues (s : Session) : Option (List (List (ℚ × ℚ))) :=
  (spin_dict s.spin).map (fun ch =>
    if s.hse then
      pySliceFrom (-((s.n : ℤ) * ((s.kpath.length : ℤ) - 1))) (eigenOf s.data ch)
    else eigenOf s.data ch)

/-- `load_projected_bands` lines 119-127: the same channel selection and
hybrid slice applied to the projection tensor. -/
def selected_projected (s : Session) : Option (List (List (List (List ℚ)))) :=
  (spin_dict s.spin).map (fun ch =>
    if s.hse then
      pySliceFrom (-((s.n : ℤ) * ((s.kpath.length : ℤ) - 1))) (projOf s.data ch)
    else projOf s.data ch)

/-- `load_bands`: `bands_dict`, with band `j` (0-based here, `band{j+1}`
in the source) mapped to its per-k-point eigenvalues shifted by the Fermi
energy.  `eigenvalues[0]` on an empty k-axis is an IndexError (`none`). -/
def load_bands (s : Session) : Option (List (List ℚ)) :=
  (selected_eigenvalues s).bind (fun ev =>
    match ev with
    | [] => none
    | e0 :: _ => some ((List.range e0.length).map (fun j =>
        ev.map (fun row => (row.getD j ((0 : ℚ), (0 : ℚ))).1 - s.data.efermi))))

/-- One (band, atom) DataFrame of `load_projected_bands`: rows are
k-points, columns are the 9 orbitals (built in the source by `np.vstack`
of the per-k-point 9-vectors and `pd.DataFrame`). -/
def mkFrame (rows : List (List ℚ)) : DFrame :=
  (List.range 9).map (fun o => (ColKey.num o, rows.map (fun r => r.getD o 0)))

/-- `load_projected_bands`: `projected_dict`, band `j` → atom `a` → frame.
`natoms = np.sum(poscar.natoms)`; an empty projected k-axis is an
IndexError (`none`). -/
def load_projected (s : Session) : Option (List (List DFrame)) :=
  (selected_projected s).bind (fun pv =>
    match pv with
    | [] => none
    | p0 :: _ => some ((List.range p0.length).map (fun j =>
        (List.range s.data.natoms.sum).map (fun a =>
          mkFrame (pv.map (fun kp => (kp.getD j []).getD a []))))))

/-- The mutable in-memory state of a loaded session: `self.bands_dict`
and `self.projected_dict` (band → atom → frame). -/
structure SessionState where
  bands : List (List ℚ)
  proj : List (List DFrame)
deriving DecidableEq

/-- `sum_spd`, as a state transformer returning (result, post-state).

Result: per band, the atom frames are folded with
`reduce(lambda x, y: x.add(y, fill_value=0), ...)`, the 's','p','d'
columns are assigned and the columns 0..8 dropped.  `reduce` of an empty
atom list raises (`none`); the state is then unchanged because the raise
happens in the first loop, before any assignment.

Post-state: pandas `x.add(y)` and `.drop` allocate fresh frames, so for
two or more atoms the stored frames are untouched.  For exactly one atom,
however, `reduce` returns the stored frame *object itself* and the three
item assignments `spd_dict[band]['s'] = ...` etc. mutate it in place:
the stored frame for that atom gains the 's','p','d' columns (`.drop`
then returns a fresh copy, so the dropped 0..8 columns stay in place). -/
def sum_spd (st : SessionState) : Option (List DFrame) × SessionState :=
  (if st.proj.any (fun fs => fs.isEmpty) then none
   else some (st.proj.map (fun fs => dfDropOrb (spdFold (dfFold fs)))),
   if st.proj.any (fun fs => fs.isEmpty) then st
   else { st with proj := st.proj.map (fun fs =>
     match fs with
     | [f] => [spdFold f]
     | _ => fs) })

/-- One band of `sum_orbitals`: fold the atom frames, then drop every
column whose label is not in `orbitals` (`sum(np.isin(orbitals, col)) == 0`).
Out-of-range orbital indices simply never match a column — no error. -/
def sum_orbitals_band (fs : List DFrame) (orbs : List ℕ) : DFrame :=
  (dfFold fs).filter (fun kv => match kv.1 with
    | ColKey.num o => orbs.contains o
    | ColKey.str _ => false)

/-- `sum_orbitals`, as a state transformer.  `df.drop(columns=col)`
rebinds the dictionary slot to a fresh frame, so the stored state is
never mutated; `reduce` of an empty atom list raises (`none`). -/
def sum_orbitals (st : SessionState) (orbs : List ℕ) :
    Option (List DFrame) × SessionState :=
  (if st.proj.any (fun fs => fs.isEmpty) then none
   else some (st.proj.map (fun fs => sum_orbitals_band fs orbs)), st)

/-- One band of `sum_atoms`: `{atom: projected_dict[band][atom].sum(axis=1)
for atom in atoms}` then `pd.DataFrame.from_dict` — dict keys keep
first-occurrence order; a lookup of an atom index that is not a key of
`projected_dict[band]` (the keys are exactly `range(natoms)`) is a
KeyError (`none`). -/
def sum_atoms_band (fs : List DFrame) (atoms : List ℕ) : Option DFrame :=
  if atoms.all (fun a => decide (a < fs.length)) then
    some ((firstDedup atoms).map (fun a => (ColKey.num a, dfSumAxis1 (fs.getD a []))))
  else none

/-- `sum_atoms`, as a state transformer; purely reads the stored frames
(`.sum(axis=1)` allocates a fresh Series). -/
def sum_atoms (st : SessionState) (atoms : List ℕ) :
    Option (List DFrame) × SessionState :=
  (st.proj.mapM (fun fs => sum_atoms_band fs atoms), st)

/-- The per-atom element labels derived from the POSCAR:
`np.hstack([[symbols[i]]*natoms[i] for i in range(len(symbols))])`. -/
def elementList (symbols : List String) (natoms : List ℕ) : List String :=
  (symbols.zip natoms).bind (fun p => List.replicate p.2 p.1)

/-- `np.where(element_list == element)[0]`: atom indices carrying the
requested element symbol. -/
def idxOfElement (el : List String) (e : String) : List ℕ :=
  (List.range el.length).filter (fun i => decide (el.getD i ("") = e))

/-- Result of `sum_elements` for one (band, element): a plain list when
`orbitals=False` (`df.sum(axis=1).tolist()`), a frame otherwise. -/
inductive ElemView where
  | plain (vals : List ℚ)
  | table (df : DFrame)
deriving DecidableEq

/-- One (band, element) of `sum_elements`:
`pd.concat([projected_dict[band][i] for i in element_index], axis=1)`
raises `ValueError: No objects to concatenate` when the element symbol
matches no atom (`none`); otherwise the concatenated frame is either
summed over all columns (`orbitals=False`), grouped back to one column
per orbital label (`orbitals=True`), and optionally family-folded
(`spd=True`, same assignments as `sum_spd` on the fresh groupby result). -/
def sum_elements_band (el : List String) (fs : List DFrame) (e : String)
    (orbitals spd : Bool) : Option ElemView :=
  let idxs := idxOfElement el e
  if idxs.isEmpty then none
  else
    (idxs.mapM (fun i => fs.get? i)).map (fun frames =>
      let df := frames.join
      if orbitals then
        let g := dfGroupSum df
        if spd then ElemView.table (dfDropOrb (spdFold g)) else ElemView.table g
      else ElemView.plain (dfSumAxis1 df))

/-- `sum_elements`, as a state transformer.  `pd.concat` and
`groupby(...).sum()` allocate fresh frames, so the in-place family-column
assignments of the `spd=True` branch hit only those fresh frames: the
stored state is never mutated. -/
def sum_elements (natoms : List ℕ) (symbols : List String) (st : SessionState)
    (elements : List String) (orbitals spd : Bool) :
    Option (List (List ElemView)) × SessionState :=
  (st.proj.mapM (fun fs =>
    elements.mapM (fun e => sum_elements_band (elementList symbols natoms) fs e orbitals spd)),
   st)

/-- `f'${k}$'` label wrapping of `get_kticks`. -/
def wrapLabel (s : String) : String := "$" ++ s ++ "$"

/-- Python `str.upper()` (the source only feeds it ASCII path symbols). -/
def pyUpper (s : String) : String := ⟨s.data.map Char.toUpper⟩

/-- Whitespace test for `str.strip()` (ASCII whitespace). -/
def isSpaceChar (c : Char) : Bool := c = ' ' || c = '\t' || c = '\n' || c = '\r'

/-- Python `str.strip()`: removes leading and trailing whitespace. -/
def pyStrip (s : String) : String :=
  ⟨((s.data.dropWhile isSpaceChar).reverse.dropWhile isSpaceChar).reverse⟩

/-- Hybrid-mode label rendering: `'$\\Gamma$'` for the character `G`,
`f'${k}$'` otherwise. -/
def hseLabel (c : Char) : String :=
  if c = 'G' then ("$\\Gamma$") else ("$") ++ c.toString ++ "$"

/-- The `+0.5` interior-boundary offset loop shared by both tick
resolvers: every position except the first and the last gains `0.5`. -/
def applyOffsets (xs : List ℚ) : List ℚ :=
  (List.range xs.length).map (fun i =>
    if 0 < i ∧ i < xs.length - 1 then xs.getD i 0 + 1 / 2 else xs.getD i 0)

/-- `get_kticks_hse` boundary positions: the comprehension
`[(i*n) - 1 for i in range(len(kpath)) if 0 < i < len(kpath)-1]`, with
`n*(len(kpath)-1)-1` appended, `0` inserted at the front, and the
interior `+0.5` offsets applied. -/
def get_kticks_hse_positions (kpath : String) (n : ℕ) : List ℚ :=
  applyOffsets (0 ::
    ((((List.range kpath.length).filter
        (fun i => decide (0 < i) && decide (i < kpath.length - 1))).map
      (fun (i : ℕ) => (i : ℚ) * (n : ℚ) - 1))
    ++ [(n : ℚ) * ((kpath.length : ℚ) - 1) - 1]))

/-- `get_kticks_hse` labels: one per character of `kpath.upper().strip()`,
`G` rendered as `$\Gamma$`. -/
def get_kticks_hse_labels (kpath : String) : List String :=
  (pyStrip (pyUpper kpath)).data.map hseLabel

/-- `get_kticks_hse`: the (positions, labels) pair handed to
`plt.xticks`. -/
def get_kticks_hse (kpath : String) (n : ℕ) : List ℚ × List String :=
  (get_kticks_hse_positions kpath n, get_kticks_hse_labels kpath)

/-- The boundary-selection index list of `get_kticks` (ordinary mode):
`index = [0]`, then `i` for each `i in range(len(pts) - 2)` with
`pts[i + 2] != pts[i + 1]`, then `len(pts) - 1`. -/
def dedupIndex (pts : List Point) : List ℕ :=
  0 :: (((List.range (pts.length - 2)).filter
    (fun i => decide (pts.getD (i + 2) (0, 0, 0) ≠ pts.getD (i + 1) (0, 0, 0))))
    ++ [pts.length - 1])

/-- The flattened coordinate pool of the declared high-symmetry points
(`np.isin` flattens its second argument). -/
def flatCoords (pts : List Point) : List ℚ :=
  pts.bind (fun p => [p.1, p.2.1, p.2.2])

/-- `np.isin(all_kpoints, high_sym_points).all(1)` for a single sampled
k-point: each of its three coordinates occurs somewhere in the flattened
declared-point pool. -/
def kpointMatches (flat : List ℚ) (p : Point) : Bool :=
  decide (p.1 ∈ flat) && decide (p.2.1 ∈ flat) && decide (p.2.2 ∈ flat)

/-- `np.where(kpts_loc == True)[0]`: positions (in sampled order) of the
sampled k-points that match the declared pool. -/
def matchedPositions (all_kpts : List Point) (hs : List Point) : List ℕ :=
  ((all_kpts.enum).filter (fun pr => kpointMatches (flatCoords hs) pr.2)).map
    (fun pr => pr.1)

/-- `get_kticks` (ordinary mode): wraps the declared labels, selects the
deduplicated boundary indices out of the label array and the matched
sampled positions (numpy fancy indexing — out-of-range is an IndexError,
`none`), applies the interior offsets and returns the (positions, labels)
pair handed to `plt.xticks`. -/
def get_kticks (s : Session) : Option (List ℚ × List String) :=
  (((dedupIndex s.data.kpts).mapM
      (fun i => (s.data.kpts_labels.map wrapLabel).get? i)).bind (fun selLabs =>
    (((dedupIndex s.data.kpts).mapM
        (fun i => (matchedPositions s.data.actual_kpoints s.data.kpts).get? i)).map
      (fun selPos => (applyOffsets (selPos.map (fun (v : ℕ) => (v : ℚ))), selLabs)))))

/-! ### Claim C10: the `spin` constructor argument has no effect -/

/-- Claim C10: two constructions differing only in the `spin` argument
yield identical sessions, and hence identical `bands_dict` and
`projected_dict` outputs — `__init__` overwrites the requested channel
with `'up'` before any loading. -/
theorem spin_param_no_effect :
    ∀ (d : VaspData) (p h : Bool) (s1 s2 k : String) (n : ℕ),
      mkSession d p h s1 k n = mkSession d p h s2 k n
      ∧ load_bands (mkSession d p h s1 k n) = load_bands (mkSession d p h s2 k n)
      ∧ load_projected (mkSession d p h s1 k n)
          = load_projected (mkSession d p h s2 k n) :=
  fun _ _ _ _ _ _ _ => ⟨rfl, rfl, rfl⟩

/-! ### Claim C7: spin channel selection (code bug) -/

/-- Claim C7 (code bug): the constructor's docstring promises that
`spin` chooses the parsed spin direction (`'up'` or `'down'`), but the
code sets `self.spin = 'up'` unconditionally, so a session built with
`'down'` loads the spin-up tensors; moreover the `'down'` key does not
even exist in `spin_dict` (the dictionary misspells it `'dowm'`), and no
`InvalidSpinChannel`-style validation exists anywhere. -/
theorem spin_arg_ignored_bug :
    spin_dict ("down") = none
    ∧ (∀ (d : VaspData) (p h : Bool) (k : String) (n : ℕ),
        (mkSession d p h ("down") k n).spin = "up")
    ∧ (∀ (d : VaspData) (p h : Bool) (k : String) (n : ℕ),
        load_bands (mkSession d p h ("down") k n)
          = load_bands (mkSession d p h ("up") k n))
    ∧ (∀ (d : VaspData) (p h : Bool) (k : String) (n : ℕ),
        load_projected (mkSession d p h ("down") k n)
          = load_projected (mkSession d p h ("up") k n)) :=
  ⟨by decide, fun _ _ _ _ _ => rfl, fun _ _ _ _ _ => rfl, fun _ _ _ _ _ => rfl⟩

/-! ### Claim C3: hybrid trailing-window slicing -/

/-- Computation of `selected_eigenvalues` on a constructed session: the
stored spin is always `'up'`, so the up-channel tensor is selected. -/
theorem selected_eigenvalues_mk (d : VaspData) (p hse : Bool) (sp kpath : String)
    (n : ℕ) :
    selected_eigenvalues (mkSession d p hse sp kpath n)
      = some (if hse then
          pySliceFrom (-((n : ℤ) * ((kpath.length : ℤ) - 1))) d.eigen_up
        else d.eigen_up) := rfl

/-- Computation of `selected_projected` on a constructed session. -/
theorem selected_projected_mk (d : VaspData) (p hse : Bool) (sp kpath : String)
    (n : ℕ) :
    selected_projected (mkSession d p hse sp kpath n)
      = some (if hse then
          pySliceFrom (-((n : ℤ) * ((kpath.length : ℤ) - 1))) d.proj_up
        else d.proj_up) := rfl

/-- `xs[-k:]` with `0 < k ≤ len(xs)` keeps exactly the last `k` entries. -/
theorem pySliceFrom_neg (k : ℕ) (xs : List α) (hk1 : 0 < k) (hk2 : k ≤ xs.length) :
    pySliceFrom (-(k : ℤ)) xs = xs.drop (xs.length - k) := by
  unfold pySliceFrom
  rw [if_pos (by omega)]
  congr 1
  omega

/-- Claim C3: with `hse=True` the loaders keep exactly the last
`n × (len(kpath) − 1)` entries of the raw k-point axis (discarding the
leading `len − n × (len(kpath) − 1)` entries), and with `hse=False` they
use the raw axis unchanged. -/
theorem hybrid_window_spec (d : VaspData) (p : Bool) (sp kpath : String) (n : ℕ)
    (h1 : 0 < n * (kpath.length - 1))
    (h2 : n * (kpath.length - 1) ≤ d.eigen_up.length)
    (h3 : n * (kpath.length - 1) ≤ d.proj_up.length) :
    (selected_eigenvalues (mkSession d p true sp kpath n)
        = some (d.eigen_up.drop (d.eigen_up.length - n * (kpath.length - 1)))
      ∧ (d.eigen_up.drop (d.eigen_up.length - n * (kpath.length - 1))).length
          = n * (kpath.length - 1))
    ∧ (selected_projected (mkSession d p true sp kpath n)
        = some (d.proj_up.drop (d.proj_up.length - n * (kpath.length - 1)))
      ∧ (d.proj_up.drop (d.proj_up.length - n * (kpath.length - 1))).length
          = n * (kpath.length - 1))
    ∧ selected_eigenvalues (mkSession d p false sp kpath n) = some d.eigen_up
    ∧ selected_projected (mkSession d p false sp kpath n) = some d.proj_up := by
  have hL : 1 ≤ kpath.length := by
    rcases Nat.eq_zero_or_pos kpath.length with h | h
    · rw [h] at h1
      simp at h1
    · exact h
  have hcast : (n : ℤ) * ((kpath.length : ℤ) - 1)
      = ((n * (kpath.length - 1) : ℕ) : ℤ) := by
    push_cast [Nat.cast_sub hL]
    ring
  refine ⟨⟨?_, ?_⟩, ⟨?_, ?_⟩, ?_, ?_⟩
  · rw [selected_eigenvalues_mk, if_pos rfl, hcast,
      pySliceFrom_neg (n * (kpath.length - 1)) d.eigen_up h1 h2]
  · rw [List.length_drop]
    omega
  · rw [selected_projected_mk, if_pos rfl, hcast,
      pySliceFrom_neg (n * (kpath.length - 1)) d.proj_up h1 h3]
  · rw [List.length_drop]
    omega
  · rw [selected_eigenvalues_mk]
    simp
  · rw [selected_projected_mk]
    simp

/-- Concrete data for the C3 witness: a raw k-point axis of length 220. -/
def rawEig220 : List (List (ℚ × ℚ)) := List.replicate 220 []

/-- Concrete projected data for the C3 witness: raw k-point axis 220. -/
def rawProj220 : List (List (List (List ℚ))) := List.replicate 220 []

/-- Concrete Data-Source snapshot for the C3 witness. -/
def dC3 : VaspData where
  eigen_up := rawEig220
  eigen_down := []
  proj_up := rawProj220
  proj_down := []
  efermi := 0
  natoms := []
  site_symbols := []
  kpts := []
  kpts_labels := []
  actual_kpoints := []

/-- Witness for C3: raw axis length 220, `kpath = "GXWLGK"` (6 points),
`n = 20` — the loader keeps the last 100 k-points and discards the first
120; with `hse=False` it keeps all 220. -/
theorem hybrid_window_spec_witness :
    selected_eigenvalues (mkSession dC3 true true ("up") "GXWLGK" 20)
        = some (rawEig220.drop 120)
    ∧ (rawEig220.drop 120).length = 100
    ∧ selected_projected (mkSession dC3 true true ("up") "GXWLGK" 20)
        = some (rawProj220.drop 120)
    ∧ selected_eigenvalues (mkSession dC3 true false ("up") "GXWLGK" 20)
        = some rawEig220 := by
  have h1 : 0 < 20 * ("GXWLGK".length - 1) := by decide
  have heig : dC3.eigen_up.length = 220 := by
    simp only [dC3, rawEig220, List.length_replicate]
  have hproj : dC3.proj_up.length = 220 := by
    simp only [dC3, rawProj220, List.length_replicate]
  have h2 : 20 * ("GXWLGK".length - 1) ≤ dC3.eigen_up.length := by
    rw [heig]
    decide
  have h3 : 20 * ("GXWLGK".length - 1) ≤ dC3.proj_up.length := by
    rw [hproj]
    decide
  have h := hybrid_window_spec dC3 true ("up") "GXWLGK" 20 h1 h2 h3
  have hval : 20 * ("GXWLGK".length - 1) = 100 := by decide
  refine ⟨?_, ?_, ?_, ?_⟩
  · have := h.1.1
    rw [hval, heig] at this
    exact this
  · have := h.1.2
    rw [hval, heig] at this
    exact this
  · have := h.2.1.1
    rw [hval, hproj] at this
    exact this
  · exact h.2.2.1

/-! ### List index helper lemmas -/

/-- `getD` through `map`, for an in-range index. -/
theorem getD_map_of_lt (l : List α) (f : α → β) (i : ℕ) (h : i < l.length)
    (d : β) (d' : α) : (l.map f).getD i d = f (l.getD i d') := by
  rw [List.getD_eq_getElem _ _ (by simpa using h), List.getD_eq_getElem _ _ h,
    List.getElem_map]

/-- `get?` at an in-range index is `some` of the `getD` value. -/
theorem get?_eq_some_getD (l : List α) (i : ℕ) (h : i < l.length) (d : α) :
    l.get? i = some (l.getD i d) := by
  rw [List.getD_eq_getElem l d h]
  exact List.get?_eq_get h ▸ rfl

/-- Reading every position of a list back off by index is the identity. -/
theorem map_getD_range_self (l : List α) (d : α) :
    (List.range l.length).map (fun i => l.getD i d) = l := by
  apply List.ext_getElem
  · simp
  · intro i h1 h2
    simp only [List.getElem_map, List.getElem_range]
    rw [List.getD_eq_getElem l d h2]

/-- Filtering `range n` to the indices below `k ≤ n` gives `range k`. -/
theorem range_filter_lt (k n : ℕ) (h : k ≤ n) :
    (List.range n).filter (fun i => decide (i < k)) = List.range k := by
  induction n with
  | zero =>
    have : k = 0 := by omega
    simp [this]
  | succ n ih =>
    rcases Nat.lt_or_ge n k with hnk | hnk
    · have hk : k = n + 1 := by omega
      subst hk
      apply List.filter_eq_self.mpr
      intro a ha
      simp only [List.mem_range] at ha
      simpa using ha
    · rw [List.range_succ, List.filter_append, ih (by omega)]
      simp [Nat.not_lt.mpr hnk]

/-- Filtering `range n` to the positive indices gives `1..n-1`. -/
theorem range_filter_pos (n : ℕ) :
    (List.range n).filter (fun i => decide (0 < i))
      = (List.range (n - 1)).map (fun j => j + 1) := by
  induction n with
  | zero => simp
  | succ n ih =>
    rw [List.range_succ, List.filter_append, ih]
    match n with
    | 0 => simp
    | m + 1 =>
      rw [show m + 1 + 1 - 1 = (m + 1 - 1) + 1 by omega, List.range_succ,
        List.map_append]
      simp

/-- The interior `+0.5` offset loop on a list with an explicit first and
last element shifts exactly the middle entries. -/
theorem applyOffsets_structure (a b : ℚ) (mid : List ℚ) :
    applyOffsets (a :: (mid ++ [b])) = a :: (mid.map (fun x => x + 1 / 2) ++ [b]) := by
  unfold applyOffsets
  have hlen : (a :: (mid ++ [b])).length = mid.length + 2 := by simp
  rw [hlen]
  have hr : List.range (mid.length + 2)
      = 0 :: ((List.range mid.length).map Nat.succ ++ [mid.length + 1]) := by
    rw [List.range_succ_eq_map, List.range_succ, List.map_append]
    rfl
  rw [hr, List.map_cons, List.map_append, List.map_map]
  have hcong : ∀ i ∈ List.range mid.length,
      ((fun i => if 0 < i ∧ i < mid.length + 2 - 1
          then (a :: (mid ++ [b])).getD i 0 + 1 / 2
          else (a :: (mid ++ [b])).getD i 0) ∘ Nat.succ) i
        = ((fun x => x + 1 / 2) ∘ fun i => mid.getD i 0) i := by
    intro i hi
    simp only [List.mem_range] at hi
    simp only [Function.comp_apply, Nat.succ_eq_add_one]
    rw [if_pos (by omega)]
    rw [List.getD_cons_succ, List.getD_append _ _ _ _ hi]
  have hhead : (if 0 < 0 ∧ 0 < mid.length + 2 - 1
      then (a :: (mid ++ [b])).getD 0 0 + 1 / 2
      else (a :: (mid ++ [b])).getD 0 0) = a := by
    rw [if_neg (by omega)]
    rfl
  have hmid : List.map ((fun i => if 0 < i ∧ i < mid.length + 2 - 1
        then (a :: (mid ++ [b])).getD i 0 + 1 / 2
        else (a :: (mid ++ [b])).getD i 0) ∘ Nat.succ) (List.range mid.length)
      = List.map (fun x => x + 1 / 2) mid :=
    (List.map_congr_left hcong).trans
      (by rw [← List.map_map, map_getD_range_self])
  have hlast : List.map (fun i => if 0 < i ∧ i < mid.length + 2 - 1
        then (a :: (mid ++ [b])).getD i 0 + 1 / 2
        else (a :: (mid ++ [b])).getD i 0) [mid.length + 1] = [b] := by
    rw [List.map_cons, List.map_nil]
    rw [if_neg (by omega)]
    rw [List.getD_cons_succ, List.getD_append_right _ _ _ _ (Nat.le_refl _)]
    simp
  rw [hhead, hmid, hlast]

/-! ### Claim C4: hybrid-mode tick positions and labels -/

/-- Claim C4: in hybrid mode, for a path of `L ≥ 2` symbols and segment
sample count `n`, the emitted boundary positions are `0`, then
`(i × n) − 1 + 0.5` for each internal boundary `i = 1 .. L−2`, then
`n × (L−1) − 1` with no offset; each path character is labelled with
itself wrapped in math markup except `'G'`, which renders as `$\Gamma$`. -/
theorem hse_kticks_spec (kpath : String) (n : ℕ) (hL : 2 ≤ kpath.length) :
    get_kticks_hse_positions kpath n
      = 0 :: (((List.range (kpath.length - 2)).map
          (fun (i : ℕ) => ((i : ℚ) + 1) * (n : ℚ) - 1 + 1 / 2))
        ++ [(n : ℚ) * ((kpath.length : ℚ) - 1) - 1])
    ∧ get_kticks_hse_labels kpath = (pyStrip (pyUpper kpath)).data.map hseLabel
    ∧ (∀ i, i < (pyStrip (pyUpper kpath)).data.length →
        (pyStrip (pyUpper kpath)).data.getD i 'G' = 'G' →
        (get_kticks_hse_labels kpath).getD i ("") = "$\\Gamma$") := by
  refine ⟨?_, rfl, ?_⟩
  · unfold get_kticks_hse_positions
    rw [← List.filter_filter,
      range_filter_lt (kpath.length - 1) kpath.length (by omega),
      range_filter_pos, Nat.sub_sub]
    rw [List.map_map]
    have hmid : (List.range (kpath.length - (1 + 1))).map
          ((fun (i : ℕ) => (i : ℚ) * (n : ℚ) - 1) ∘ Nat.succ)
        = (List.range (kpath.length - 2)).map
          (fun (i : ℕ) => ((i : ℚ) + 1) * (n : ℚ) - 1) := by
      apply List.map_congr_left
      intro i _
      simp only [Function.comp_apply, Nat.succ_eq_add_one]
      push_cast
      ring
    rw [hmid, applyOffsets_structure, List.map_map]
    rfl
  · intro i hi hG
    unfold get_kticks_hse_labels
    rw [getD_map_of_lt _ _ _ hi _ 'G', hG]
    rfl

/-- Witness for C4: path `"GXWLGK"`, `n = 20` gives positions
`[0, 19.5, 39.5, 59.5, 79.5, 99]` and `Γ` labels for both `G`
characters. -/
theorem hse_kticks_spec_witness :
    get_kticks_hse_positions ("GXWLGK") 20
      = [0, 39 / 2, 79 / 2, 119 / 2, 159 / 2, 99]
    ∧ get_kticks_hse_labels ("GXWLGK")
      = ["$\\Gamma$", "$X$", "$W$", "$L$", "$\\Gamma$", "$K$"] := by
  have h := hse_kticks_spec ("GXWLGK") 20 (by decide)
  constructor
  · rw [h.1]
    norm_num [List.range_succ, show ("GXWLGK".length : ℕ) = 6 from by decide]
  · rw [h.2.1]
    decide

/-! ### Option `mapM` helper lemmas -/

/-- A single failing element makes a python loop (modelled as `mapM` over
`Option`) fail as a whole. -/
theorem option_mapM_eq_none_of_mem (f : α → Option β) (l : List α) (a : α)
    (ha : a ∈ l) (hf : f a = none) : l.mapM f = none := by
  induction l with
  | nil => cases ha
  | cons x xs ih =>
    rcases List.mem_cons.mp ha with h | h
    · subst h
      rw [List.mapM_cons, hf]
      rfl
    · rw [List.mapM_cons, ih h]
      cases hfx : f x <;> rfl

/-- A successful `mapM` over `Option` yields one output per input. -/
theorem option_mapM_length (f : α → Option β) (l : List α) (V : List β)
    (h : l.mapM f = some V) : V.length = l.length := by
  induction l generalizing V with
  | nil =>
    rw [List.mapM_nil] at h
    cases h
    rfl
  | cons x xs ih =>
    rw [List.mapM_cons] at h
    cases hfx : f x with
    | none => rw [hfx] at h; cases h
    | some b =>
      rw [hfx] at h
      cases hm : xs.mapM f with
      | none => rw [hm] at h; cases h
      | some bs =>
        rw [hm] at h
        cases h
        simp [ih bs hm]

/-- A successful `mapM` over `Option` computes each output from the input
at the same position. -/
theorem option_mapM_getD (f : α → Option β) (l : List α) (V : List β)
    (h : l.mapM f = some V) (i : ℕ) (hi : i < l.length) (d : α) (d' : β) :
    f (l.getD i d) = some (V.getD i d') := by
  induction l generalizing V i with
  | nil => exact absurd hi (by simp)
  | cons x xs ih =>
    rw [List.mapM_cons] at h
    cases hfx : f x with
    | none => rw [hfx] at h; cases h
    | some b =>
      rw [hfx] at h
      cases hm : xs.mapM f with
      | none => rw [hm] at h; cases h
      | some bs =>
        rw [hm] at h
        cases h
        match i with
        | 0 => simpa using hfx
        | j + 1 =>
          rw [List.getD_cons_succ, List.getD_cons_succ]
          exact ih bs hm j (by simpa using hi)

/-- An in-range `getD` value is a member of the list. -/
theorem getD_mem_of_lt (l : List α) (i : ℕ) (hi : i < l.length) (d : α) :
    l.getD i d ∈ l := by
  rw [List.getD_eq_getElem _ _ hi]
  exact List.getElem_mem hi

/-! ### Claim C1: absent element symbol in `sum_elements` -/

/-- An element symbol absent from the composition matches no atom index. -/
theorem idxOfElement_eq_nil (l : List String) (e : String) (he : e ∉ l) :
    idxOfElement l e = [] := by
  unfold idxOfElement
  apply List.filter_eq_nil.mpr
  intro i hi
  simp only [List.mem_range] at hi
  simp only [decide_eq_true_eq]
  intro hEq
  exact he (hEq ▸ getD_mem_of_lt l i hi (""))

/-- Claim C1 (amended): requesting any element symbol absent from the
POSCAR composition makes `sum_elements` fail — `np.where` returns an
empty index set and `pd.concat` of an empty frame list raises
`ValueError: No objects to concatenate` — instead of producing an
all-zero column (this requires at least one loaded band, since with an
empty `projected_dict` the loop body never runs). -/
theorem absent_element_raises (natoms : List ℕ) (symbols : List String)
    (st : SessionState) (els : List String) (ob sp : Bool)
    (h1 : st.proj ≠ [])
    (h2 : ∃ e ∈ els, e ∉ elementList symbols natoms) :
    (sum_elements natoms symbols st els ob sp).1 = none := by
  obtain ⟨e, he, hne⟩ := h2
  obtain ⟨fs, rest, hfs⟩ : ∃ fs rest, st.proj = fs :: rest := by
    cases hp : st.proj with
    | nil => exact absurd hp h1
    | cons a l => exact ⟨a, l, rfl⟩
  show st.proj.mapM _ = none
  apply option_mapM_eq_none_of_mem _ _ fs (by rw [hfs]; exact List.mem_cons_self _ _)
  apply option_mapM_eq_none_of_mem _ _ e he
  have hidx : idxOfElement (elementList symbols natoms) e = [] :=
    idxOfElement_eq_nil _ _ hne
  simp [sum_elements_band, hidx]

/-- A one-band, one-atom, one-k-point concrete projection table (weights
1..9 on the single atom's nine orbitals). -/
def cFrameA : DFrame := mkFrame [[1, 2, 3, 4, 5, 6, 7, 8, 9]]

/-- A second concrete atom frame (weights 10..90). -/
def cFrameB : DFrame := mkFrame [[10, 20, 30, 40, 50, 60, 70, 80, 90]]

/-- Concrete loaded state with a single band holding a single atom. -/
def cState1 : SessionState := { bands := [[0]], proj := [[cFrameA]] }

/-- Concrete loaded state with a single band holding two atoms. -/
def cState2 : SessionState := { bands := [[0]], proj := [[cFrameA, cFrameB]] }

/-- Witness for C1 (amended): composition `In₁`, requested elements
`["In", "X"]` with `"X"` absent — the call fails. -/
theorem absent_element_raises_witness :
    (sum_elements [1] ["In"] cState1 ["In", "X"] true true).1 = none := by
  apply absent_element_raises
  · decide
  · exact ⟨"X", by decide, by decide⟩

/-- Counterexample to C1 as stated: for the concrete one-band
one-atom session with composition `In₁`, `sum_elements(['X'])` with
`'X'` absent does not succeed with an all-zero column — it fails
(`pd.concat` of an empty list raises). -/
theorem absent_element_counterexample :
    (sum_elements [1] ["In"] cState1 ["X"] false false).1 = none := by decide

/-! ### Claim C8: out-of-range grouping keys -/

/-- Claim C8 (amended): `sum_atoms` with any atom index outside
`0..natoms−1` fails synchronously (a python `KeyError`, the spec's
`UnknownGroupingKey`); but `sum_orbitals` never fails on out-of-range
orbital indices — as long as each band has at least one atom it succeeds,
silently ignoring indices outside 0–8, and every column of the returned
frames carries a label from the requested list. -/
theorem grouping_key_errors :
    (∀ (st : SessionState) (atoms : List ℕ),
      (∃ fs ∈ st.proj, ∃ a ∈ atoms, fs.length ≤ a) →
      (sum_atoms st atoms).1 = none)
    ∧ (∀ (st : SessionState) (orbs : List ℕ),
      (∀ fs ∈ st.proj, fs ≠ []) →
      ((sum_orbitals st orbs).1).isSome = true)
    ∧ (∀ (st : SessionState) (orbs : List ℕ) (V : List DFrame),
      (sum_orbitals st orbs).1 = some V →
      ∀ fr ∈ V, ∀ kv ∈ fr, ∃ o ∈ orbs, kv.1 = ColKey.num o) := by
  refine ⟨?_, ?_, ?_⟩
  · intro st atoms h
    obtain ⟨fs, hfs, a, ha, hlen⟩ := h
    show st.proj.mapM _ = none
    apply option_mapM_eq_none_of_mem _ _ fs hfs
    unfold sum_atoms_band
    rw [if_neg]
    intro hall
    have := List.all_eq_true.mp hall a ha
    simp only [decide_eq_true_eq] at this
    omega
  · intro st orbs h
    have hguard : st.proj.any (fun fs => fs.isEmpty) = false := by
      rw [List.any_eq_false]
      intro fs hfs
      simp [List.isEmpty_iff, h fs hfs]
    simp [sum_orbitals, hguard]
  · intro st orbs V hV fr hfr kv hkv
    have hVeq : V = st.proj.map (fun fs => sum_orbitals_band fs orbs) := by
      by_cases hg : st.proj.any (fun fs => fs.isEmpty) = true
      · exact absurd hV (by simp [sum_orbitals, hg])
      · have this2 : (if st.proj.any (fun fs => fs.isEmpty) then none
            else some (st.proj.map (fun fs => sum_orbitals_band fs orbs))) = some V := hV
        rw [Bool.not_eq_true] at hg
        rw [hg] at this2
        simp at this2
        exact this2.symm
    subst hVeq
    obtain ⟨fs, _, hfr2⟩ := List.mem_map.mp hfr
    subst hfr2
    have hp := List.of_mem_filter hkv
    match hk : kv.1 with
    | ColKey.num o =>
      rw [hk] at hp
      simp only at hp
      exact ⟨o, by simpa using hp, rfl⟩
    | ColKey.str s =>
      rw [hk] at hp
      simp at hp

/-- Witness for C8 (amended): on the one-band one-atom state,
`sum_atoms([1])` fails (atom index 1 is out of range for 1 atom) while
`sum_orbitals([0, 9])` succeeds. -/
theorem grouping_key_errors_witness :
    (sum_atoms cState1 [1]).1 = none
    ∧ ((sum_orbitals cState1 [0, 9]).1).isSome = true := by
  constructor
  · exact grouping_key_errors.1 cState1 [1]
      ⟨[cFrameA], by decide, 1, by decide, by decide⟩
  · exact grouping_key_errors.2.1 cState1 [0, 9] (by decide)

/-- Counterexample to C8 as stated: `sum_orbitals` with the out-of-range
orbital index 9 does not fail — on the one-band one-atom state it
succeeds, returning one frame whose columns have simply all been
dropped. -/
theorem sum_orbitals_no_error_counterexample :
    (sum_orbitals cState1 [9]).1 = some [[]] := by decide

/-! ### Claim C9: aggregation operations and the stored state -/

/-- Claim C9 (amended): with at least two atoms per band, every
aggregation operation leaves `bands_dict` and `projected_dict` exactly as
loaded (`sum_orbitals`, `sum_atoms` and `sum_elements` do so
unconditionally; `sum_spd` does so because `reduce` over two or more
frames allocates a fresh frame).  The one-atom exception is the
counterexample `sum_spd_mutation_counterexample`. -/
theorem aggregation_preserves_state (st : SessionState)
    (h : ∀ fs ∈ st.proj, 2 ≤ fs.length) :
    (sum_spd st).2 = st
    ∧ (∀ orbs, (sum_orbitals st orbs).2 = st)
    ∧ (∀ atoms, (sum_atoms st atoms).2 = st)
    ∧ (∀ na sy els ob sp, (sum_elements na sy st els ob sp).2 = st) := by
  refine ⟨?_, fun _ => rfl, fun _ => rfl, fun _ _ _ _ _ => rfl⟩
  show (if st.proj.any (fun fs => fs.isEmpty) then st
    else { st with proj := st.proj.map (fun fs =>
      match fs with
      | [f] => [spdFold f]
      | _ => fs) }) = st
  by_cases hg : st.proj.any (fun fs => fs.isEmpty) = true
  · rw [if_pos hg]
  · rw [if_neg hg]
    have hmap : st.proj.map (fun fs =>
        match fs with
        | [f] => [spdFold f]
        | _ => fs) = st.proj := by
      conv_rhs => rw [← List.map_id st.proj]
      apply List.map_congr_left
      intro fs hfs
      match fs with
      | [] => rfl
      | [f] => exact absurd (h [f] hfs) (by simp)
      | a :: b :: t => rfl
    rw [hmap]

/-- Witness for C9 (amended): on the one-band two-atom state every
aggregation call returns the state unchanged. -/
theorem aggregation_preserves_state_witness :
    (sum_spd cState2).2 = cState2
    ∧ (sum_orbitals cState2 [0, 3]).2 = cState2
    ∧ (sum_atoms cState2 [1, 0]).2 = cState2
    ∧ (sum_elements [2] ["In"] cState2 ["In"] false false).2 = cState2 := by
  have h := aggregation_preserves_state cState2 (by decide)
  exact ⟨h.1, h.2.1 [0, 3], h.2.2.1 [1, 0], h.2.2.2 [2] ["In"] ["In"] false false⟩

/-- Counterexample to C9 as stated: on the one-band one-atom state,
`sum_spd` mutates the stored `projected_dict` — `reduce` over the
singleton atom list returns the stored frame object itself, and the
`'s'`,`'p'`,`'d'` column assignments append three columns to it in
place, so the post-call state differs from the loaded state. -/
theorem sum_spd_mutation_counterexample :
    (sum_spd cState1).2.proj = [[spdFold cFrameA]]
    ∧ (sum_spd cState1).2 ≠ cState1 := by
  refine ⟨rfl, fun hEq => ?_⟩
  have hlen := congrArg (fun s => ((s.proj.getD 0 []).getD 0 []).length) hEq
  exact absurd hlen (by decide)

/-! ### Claim C6: `sum_atoms` is permutation invariant -/

/-- Column lookup on a keyed `map`: the first entry with the requested
integer label holds the value computed for that label. -/
theorem dfColD_map_num (dl : List ℕ) (g : ℕ → List ℚ) (a : ℕ) (ha : a ∈ dl) :
    dfColD (dl.map (fun x => (ColKey.num x, g x))) (ColKey.num a) = g a := by
  induction dl with
  | nil => cases ha
  | cons x xs ih =>
    by_cases hx : x = a
    · subst hx
      unfold dfColD
      rw [List.map_cons, List.find?_cons_of_pos _ (by simp)]
      rfl
    · unfold dfColD at ih ⊢
      rw [List.map_cons, List.find?_cons_of_neg _ (by simp [hx])]
      rcases List.mem_cons.mp ha with h | h
      · exact absurd h.symm hx
      · exact ih h

/-- Membership in the first-occurrence deduplication with accumulator. -/
theorem mem_firstDedupAux [DecidableEq α] (l : List α) (seen : List α) (a : α) :
    a ∈ firstDedupAux l seen ↔ a ∈ l ∧ a ∉ seen := by
  induction l generalizing seen with
  | nil => simp [firstDedupAux]
  | cons x xs ih =>
    unfold firstDedupAux
    by_cases hx : x ∈ seen
    · rw [if_pos hx, ih]
      constructor
      · rintro ⟨h1, h2⟩
        exact ⟨List.mem_cons_of_mem _ h1, h2⟩
      · rintro ⟨h1, h2⟩
        rcases List.mem_cons.mp h1 with h | h
        · exact absurd (h ▸ hx) h2
        · exact ⟨h, h2⟩
    · rw [if_neg hx, List.mem_cons, ih]
      constructor
      · rintro (h | ⟨h1, h2⟩)
        · subst h
          exact ⟨List.mem_cons_self _ _, hx⟩
        · exact ⟨List.mem_cons_of_mem _ h1,
            fun hs => h2 (List.mem_cons_of_mem _ hs)⟩
      · rintro ⟨h1, h2⟩
        rcases List.mem_cons.mp h1 with h | h
        · exact Or.inl h
        · by_cases hax : a = x
          · exact Or.inl hax
          · exact Or.inr ⟨h, by simp [List.mem_cons, hax, h2]⟩

/-- Membership survives first-occurrence deduplication. -/
theorem mem_firstDedup [DecidableEq α] (l : List α) (a : α) :
    a ∈ firstDedup l ↔ a ∈ l := by
  unfold firstDedup
  rw [mem_firstDedupAux]
  simp

/-- Claim C6: `sum_atoms` is invariant under permutation of its `atoms`
argument — for every atom index in the list, the emitted column for that
atom is the same for any permutation of the request, namely the
orbital-summed weights of that atom's stored frame; only column order
can differ. -/
theorem sum_atoms_perm_invariant (st : SessionState) (atoms atoms2 : List ℕ)
    (hperm : atoms.Perm atoms2) (V V2 : List DFrame)
    (hV : (sum_atoms st atoms).1 = some V)
    (hV2 : (sum_atoms st atoms2).1 = some V2)
    (a : ℕ) (ha : a ∈ atoms) (b : ℕ) (hb : b < st.proj.length) :
    dfColD (V2.getD b []) (ColKey.num a) = dfColD (V.getD b []) (ColKey.num a)
    ∧ dfColD (V.getD b []) (ColKey.num a)
        = dfSumAxis1 ((st.proj.getD b []).getD a []) := by
  have h1 := option_mapM_getD _ _ _ hV b hb [] []
  have h2 := option_mapM_getD _ _ _ hV2 b hb [] []
  have inv : ∀ (ats : List ℕ) (W : DFrame),
      sum_atoms_band (st.proj.getD b []) ats = some W →
      W = (firstDedup ats).map (fun x =>
        (ColKey.num x, dfSumAxis1 ((st.proj.getD b []).getD x []))) := by
    intro ats W hW
    unfold sum_atoms_band at hW
    by_cases hgd : ats.all (fun x => decide (x < (st.proj.getD b []).length)) = true
    · rw [if_pos hgd] at hW
      exact (Option.some_inj.mp hW).symm
    · rw [if_neg hgd] at hW
      cases hW
  have e1 := inv atoms (V.getD b []) h1
  have e2 := inv atoms2 (V2.getD b []) h2
  rw [e1, e2]
  rw [dfColD_map_num _ _ a ((mem_firstDedup _ _).mpr (hperm.mem_iff.mp ha)),
    dfColD_map_num _ _ a ((mem_firstDedup _ _).mpr ha)]
  exact ⟨rfl, rfl⟩

/-- The concrete output of `sum_atoms` on `cState2` for atoms `[0, 1]`. -/
def cAtoms01 : List DFrame :=
  [[(ColKey.num 0, dfSumAxis1 cFrameA), (ColKey.num 1, dfSumAxis1 cFrameB)]]

/-- The concrete output of `sum_atoms` on `cState2` for atoms `[1, 0]`. -/
def cAtoms10 : List DFrame :=
  [[(ColKey.num 1, dfSumAxis1 cFrameB), (ColKey.num 0, dfSumAxis1 cFrameA)]]

/-- Witness for C6: on the one-band two-atom state, requesting `[0, 1]`
and the permutation `[1, 0]` yields the same column for atom 0. -/
theorem sum_atoms_perm_invariant_witness :
    dfColD (cAtoms10.getD 0 []) (ColKey.num 0)
        = dfColD (cAtoms01.getD 0 []) (ColKey.num 0)
    ∧ dfColD (cAtoms01.getD 0 []) (ColKey.num 0)
        = dfSumAxis1 ((cState2.proj.getD 0 []).getD 0 []) :=
  sum_atoms_perm_invariant cState2 [0, 1] [1, 0] (by decide) cAtoms01 cAtoms10
    rfl rfl 0 (by decide) 0 (by decide)

/-! ### Claim C2: the s/p/d fold conserves total weight -/

/-- The column labels of a loaded per-(band, atom) frame: integers 0..8. -/
def orbKeys : List ColKey := (List.range 9).map ColKey.num

/-- Well-formedness of a loaded frame: columns labelled 0..8, each of
row count `nk`. -/
def FrameWF (nk : ℕ) (f : DFrame) : Prop :=
  dfKeys f = orbKeys ∧ ∀ kv ∈ f, kv.2.length = nk

instance (nk : ℕ) (f : DFrame) : Decidable (FrameWF nk f) := by
  unfold FrameWF
  infer_instance

/-- `addPad` is pointwise addition (missing entries count 0). -/
theorem addPad_getD (a b : List ℚ) (k : ℕ) :
    (addPad a b).getD k 0 = a.getD k 0 + b.getD k 0 := by
  induction a generalizing b k with
  | nil => simp [addPad]
  | cons x xs ih =>
    cases b with
    | nil => simp [addPad]
    | cons y ys =>
      cases k with
      | zero => simp [addPad]
      | succ j =>
        simp only [addPad, List.getD_cons_succ]
        exact ih ys j

/-- `addPad` keeps the longer row count. -/
theorem addPad_length (a b : List ℚ) :
    (addPad a b).length = max a.length b.length := by
  induction a generalizing b with
  | nil => simp [addPad]
  | cons x xs ih =>
    cases b with
    | nil => simp [addPad]
    | cons y ys => simp [addPad, ih, Nat.succ_max_succ]

/-- `find?` by key over a keyed `map` finds the key then builds the pair. -/
theorem find?_map_pair (ks : List ColKey) (g : ColKey → List ℚ) (c : ColKey) :
    (ks.map (fun k => (k, g k))).find? (fun kv => decide (kv.1 = c))
      = (ks.find? (fun k => decide (k = c))).map (fun k => (k, g k)) := by
  induction ks with
  | nil => rfl
  | cons x xs ih =>
    by_cases hx : x = c
    · subst hx
      rw [List.map_cons, List.find?_cons_of_pos _ (by simp),
        List.find?_cons_of_pos _ (by simp)]
      rfl
    · rw [List.map_cons, List.find?_cons_of_neg _ (by simp [hx]),
        List.find?_cons_of_neg _ (by simp [hx]), ih]

/-- `find?` for a member key returns that key. -/
theorem find?_self_of_mem (ks : List ColKey) (c : ColKey) (hc : c ∈ ks) :
    ks.find? (fun k => decide (k = c)) = some c := by
  induction ks with
  | nil => cases hc
  | cons x xs ih =>
    by_cases hx : x = c
    · subst hx
      rw [List.find?_cons_of_pos _ (by simp)]
    · rw [List.find?_cons_of_neg _ (by simp [hx])]
      rcases List.mem_cons.mp hc with h | h
      · exact absurd h.symm hx
      · exact ih h

/-- A well-formed frame's columns all have row count `nk`. -/
theorem dfColD_length (nk : ℕ) (f : DFrame) (hf : FrameWF nk f) (c : ColKey)
    (hc : c ∈ orbKeys) : (dfColD f c).length = nk := by
  have hmem : c ∈ dfKeys f := hf.1 ▸ hc
  obtain ⟨kv, hkv, hkc⟩ := List.mem_map.mp hmem
  have hsome : (f.find? (fun kv => decide (kv.1 = c))).isSome :=
    List.find?_isSome.mpr ⟨kv, hkv, by simp [hkc]⟩
  obtain ⟨kv2, hkv2⟩ := Option.isSome_iff_exists.mp hsome
  unfold dfColD
  rw [hkv2]
  exact hf.2 kv2 (List.mem_of_find?_eq_some hkv2)

/-- `DataFrame.add(..., fill_value=0)` on two loaded frames: keys stay
0..8, row counts are preserved, and every column is the `addPad` of the
operands' columns. -/
theorem dfAdd_spec (nk : ℕ) (x y : DFrame) (hx : FrameWF nk x) (hy : FrameWF nk y) :
    FrameWF nk (dfAdd x y)
    ∧ ∀ c ∈ orbKeys, dfColD (dfAdd x y) c = addPad (dfColD x c) (dfColD y c) := by
  have hfilter : (dfKeys y).filter (fun k => decide (k ∉ dfKeys x)) = [] := by
    apply List.filter_eq_nil.mpr
    intro k hk
    rw [hy.1] at hk
    rw [hx.1]
    simp [hk]
  have hcol : ∀ c ∈ orbKeys,
      dfColD (dfAdd x y) c = addPad (dfColD x c) (dfColD y c) := by
    intro c hc
    unfold dfAdd
    rw [hfilter, List.append_nil]
    unfold dfColD
    rw [find?_map_pair, find?_self_of_mem _ _ (by rw [hx.1]; exact hc)]
    rfl
  refine ⟨⟨?_, ?_⟩, hcol⟩
  · unfold dfAdd
    rw [hfilter, List.append_nil]
    unfold dfKeys
    rw [List.map_map]
    simpa [dfKeys] using hx.1
  · intro kv hkv
    unfold dfAdd at hkv
    rw [hfilter, List.append_nil] at hkv
    obtain ⟨c, hcmem, hceq⟩ := List.mem_map.mp hkv
    have hc9 : c ∈ orbKeys := hx.1 ▸ hcmem
    rw [← hceq]
    show (addPad (dfColD x c) (dfColD y c)).length = nk
    rw [addPad_length, dfColD_length nk x hx c hc9, dfColD_length nk y hy c hc9]
    simp

/-- `reduce(lambda x, y: x.add(y, fill_value=0), frames)` over well-formed
frames: the result is well-formed and each of its columns is, pointwise,
the sum of the corresponding column over all frames. -/
theorem dfFold_spec (nk : ℕ) (f : DFrame) (t : List DFrame)
    (hf : FrameWF nk f) (ht : ∀ g ∈ t, FrameWF nk g) :
    FrameWF nk (t.foldl dfAdd f)
    ∧ ∀ c ∈ orbKeys, ∀ k, (dfColD (t.foldl dfAdd f) c).getD k 0
        = (dfColD f c).getD k 0
          + (t.map (fun g => (dfColD g c).getD k 0)).sum := by
  induction t generalizing f with
  | nil =>
    refine ⟨hf, ?_⟩
    intro c _ k
    simp
  | cons g gs ih =>
    have hg := ht g (List.mem_cons_self _ _)
    have hadd := dfAdd_spec nk f g hf hg
    obtain ⟨ihWF, ihcol⟩ := ih (dfAdd f g) hadd.1
      (fun g2 hg2 => ht g2 (List.mem_cons_of_mem _ hg2))
    refine ⟨ihWF, ?_⟩
    intro c hc k
    rw [List.foldl_cons, ihcol c hc k, hadd.2 c hc, addPad_getD]
    simp [List.map_cons, List.sum_cons]
    ring

/-- A frame with keys 0..8 has no string-labelled column. -/
theorem no_str_key (R : DFrame) (hk : dfKeys R = orbKeys) (s : String) :
    R.any (fun kv => decide (kv.1 = ColKey.str s)) = false := by
  rw [List.any_eq_false]
  intro kv hkv
  have hmem : kv.1 ∈ orbKeys := hk ▸ List.mem_map_of_mem _ hkv
  obtain ⟨o, _, ho⟩ := List.mem_map.mp hmem
  simp [← ho]

/-- Column lookup passes through an appended tail when the key is
present up front. -/
theorem dfColD_append_left (R S : DFrame) (c : ColKey) (hc : c ∈ dfKeys R) :
    dfColD (R ++ S) c = dfColD R c := by
  obtain ⟨kv, hkv, hkc⟩ := List.mem_map.mp hc
  have hsome : (R.find? (fun kv => decide (kv.1 = c))).isSome :=
    List.find?_isSome.mpr ⟨kv, hkv, by simp [hkc]⟩
  obtain ⟨kv2, hkv2⟩ := Option.isSome_iff_exists.mp hsome
  unfold dfColD
  rw [List.find?_append, hkv2]
  rfl

/-- `df[k] = v` for a fresh label appends a new column at the end. -/
theorem dfSet_new_key (X : DFrame) (k : ColKey) (v : List ℚ)
    (h : X.any (fun kv => decide (kv.1 = k)) = false) :
    dfSet X k v = X ++ [(k, v)] := by
  unfold dfSet
  rw [h]
  simp

/-- Lookup of `'s'` in the three-column family view. -/
theorem dfColD_three_s (v1 v2 v3 : List ℚ) :
    dfColD [(ColKey.str ("s"), v1), (ColKey.str ("p"), v2), (ColKey.str ("d"), v3)]
      (ColKey.str ("s")) = v1 := by
  unfold dfColD
  rw [List.find?_cons_of_pos _ (by simp)]
  rfl

/-- Lookup of `'p'` in the three-column family view. -/
theorem dfColD_three_p (v1 v2 v3 : List ℚ) :
    dfColD [(ColKey.str ("s"), v1), (ColKey.str ("p"), v2), (ColKey.str ("d"), v3)]
      (ColKey.str ("p")) = v2 := by
  unfold dfColD
  rw [List.find?_cons_of_neg _ (by simp), List.find?_cons_of_pos _ (by simp)]
  rfl

/-- Lookup of `'d'` in the three-column family view. -/
theorem dfColD_three_d (v1 v2 v3 : List ℚ) :
    dfColD [(ColKey.str ("s"), v1), (ColKey.str ("p"), v2), (ColKey.str ("d"), v3)]
      (ColKey.str ("d")) = v3 := by
  unfold dfColD
  rw [List.find?_cons_of_neg _ (by simp), List.find?_cons_of_neg _ (by simp),
    List.find?_cons_of_pos _ (by simp)]
  rfl

/-- The family-fold assignments on a frame with keys 0..8 append exactly
the three new columns `'s'`, `'p'`, `'d'` built from the original
columns. -/
theorem spdFold_structure (R : DFrame) (hk : dfKeys R = orbKeys) :
    spdFold R = R ++
      [(ColKey.str ("s"), dfColD R (ColKey.num 0)),
       (ColKey.str ("p"), seriesAdd (seriesAdd (dfColD R (ColKey.num 1))
         (dfColD R (ColKey.num 2))) (dfColD R (ColKey.num 3))),
       (ColKey.str ("d"), seriesAdd (seriesAdd (seriesAdd (seriesAdd
         (dfColD R (ColKey.num 4)) (dfColD R (ColKey.num 5)))
         (dfColD R (ColKey.num 6))) (dfColD R (ColKey.num 7)))
         (dfColD R (ColKey.num 8)))] := by
  have hnum : ∀ o : ℕ, o < 9 → ColKey.num o ∈ dfKeys R := by
    intro o ho
    rw [hk]
    exact List.mem_map_of_mem _ (List.mem_range.mpr ho)
  have hR : ∀ (s : String), R.any (fun kv => decide (kv.1 = ColKey.str s)) = false :=
    no_str_key R hk
  have hS : spdFoldS R = R ++ [(ColKey.str ("s"), dfColD R (ColKey.num 0))] := by
    unfold spdFoldS
    exact dfSet_new_key _ _ _ (hR ("s"))
  have hanyP : (R ++ [(ColKey.str ("s"), dfColD R (ColKey.num 0))]).any
      (fun kv => decide (kv.1 = ColKey.str ("p"))) = false := by
    rw [List.any_append, hR ("p")]
    simp
  have hP : spdFoldP (spdFoldS R)
      = (R ++ [(ColKey.str ("s"), dfColD R (ColKey.num 0))])
        ++ [(ColKey.str ("p"), seriesAdd (seriesAdd (dfColD R (ColKey.num 1))
          (dfColD R (ColKey.num 2))) (dfColD R (ColKey.num 3)))] := by
    unfold spdFoldP
    rw [hS, dfSet_new_key _ _ _ hanyP,
      dfColD_append_left R _ _ (hnum 1 (by omega)),
      dfColD_append_left R _ _ (hnum 2 (by omega)),
      dfColD_append_left R _ _ (hnum 3 (by omega))]
  have hnum2 : ∀ o : ℕ, o < 9 →
      ColKey.num o ∈ dfKeys (R ++ [(ColKey.str ("s"), dfColD R (ColKey.num 0))]) := by
    intro o ho
    unfold dfKeys
    rw [List.map_append]
    exact List.mem_append_left _ (hnum o ho)
  have hanyD : ((R ++ [(ColKey.str ("s"), dfColD R (ColKey.num 0))])
      ++ [(ColKey.str ("p"), seriesAdd (seriesAdd (dfColD R (ColKey.num 1))
        (dfColD R (ColKey.num 2))) (dfColD R (ColKey.num 3)))]).any
      (fun kv => decide (kv.1 = ColKey.str ("d"))) = false := by
    rw [List.any_append, List.any_append, hR ("d")]
    simp
  have hD : spdFold R
      = (((R ++ [(ColKey.str ("s"), dfColD R (ColKey.num 0))])
        ++ [(ColKey.str ("p"), seriesAdd (seriesAdd (dfColD R (ColKey.num 1))
          (dfColD R (ColKey.num 2))) (dfColD R (ColKey.num 3)))])
        ++ [(ColKey.str ("d"), seriesAdd (seriesAdd (seriesAdd (seriesAdd
          (dfColD R (ColKey.num 4)) (dfColD R (ColKey.num 5)))
          (dfColD R (ColKey.num 6))) (dfColD R (ColKey.num 7)))
          (dfColD R (ColKey.num 8)))]) := by
    unfold spdFold spdFoldD
    rw [hP, dfSet_new_key _ _ _ hanyD,
      dfColD_append_left _ _ _ (hnum2 4 (by omega)),
      dfColD_append_left R _ _ (hnum 4 (by omega)),
      dfColD_append_left _ _ _ (hnum2 5 (by omega)),
      dfColD_append_left R _ _ (hnum 5 (by omega)),
      dfColD_append_left _ _ _ (hnum2 6 (by omega)),
      dfColD_append_left R _ _ (hnum 6 (by omega)),
      dfColD_append_left _ _ _ (hnum2 7 (by omega)),
      dfColD_append_left R _ _ (hnum 7 (by omega)),
      dfColD_append_left _ _ _ (hnum2 8 (by omega)),
      dfColD_append_left R _ _ (hnum 8 (by omega))]
  rw [hD]
  simp [List.append_assoc]

/-- Dropping columns 0..8 from the family-folded frame leaves exactly
the three family columns. -/
theorem dfDropOrb_spdFold (R : DFrame) (hk : dfKeys R = orbKeys) :
    dfDropOrb (spdFold R) =
      [(ColKey.str ("s"), dfColD R (ColKey.num 0)),
       (ColKey.str ("p"), seriesAdd (seriesAdd (dfColD R (ColKey.num 1))
         (dfColD R (ColKey.num 2))) (dfColD R (ColKey.num 3))),
       (ColKey.str ("d"), seriesAdd (seriesAdd (seriesAdd (seriesAdd
         (dfColD R (ColKey.num 4)) (dfColD R (ColKey.num 5)))
         (dfColD R (ColKey.num 6))) (dfColD R (ColKey.num 7)))
         (dfColD R (ColKey.num 8)))] := by
  rw [spdFold_structure R hk]
  unfold dfDropOrb
  rw [List.filter_append]
  have hRnil : R.filter (fun kv => match kv.1 with
      | ColKey.num o => decide (9 ≤ o)
      | ColKey.str _ => true) = [] := by
    apply List.filter_eq_nil.mpr
    intro kv hkv
    have hmem : kv.1 ∈ orbKeys := hk ▸ List.mem_map_of_mem _ hkv
    obtain ⟨o, ho, hko⟩ := List.mem_map.mp hmem
    simp only [List.mem_range] at ho
    rw [← hko]
    simp
    omega
  rw [hRnil]
  rfl

/-- Pointwise value of pandas Series addition on equal-length columns. -/
theorem seriesAdd_getD (a b : List ℚ) (k : ℕ) (ha : k < a.length)
    (hb : k < b.length) :
    (seriesAdd a b).getD k 0 = a.getD k 0 + b.getD k 0 := by
  unfold seriesAdd
  rw [List.getD_eq_getElem _ _ (by rw [List.length_zipWith]; omega),
    List.getD_eq_getElem _ _ ha, List.getD_eq_getElem _ _ hb,
    List.getElem_zipWith]

/-- `seriesAdd` of equal-length columns keeps the row count. -/
theorem seriesAdd_length (a b : List ℚ) (h : a.length = b.length) :
    (seriesAdd a b).length = a.length := by
  unfold seriesAdd
  rw [List.length_zipWith]
  omega

/-- Claim C2: for every loaded state (each band a non-empty list of
well-formed 9-column frames of `nk` rows), every band `b` and k-point
`k`, the three family columns of `sum_spd` satisfy
`s + p + d = Σ (9 atom-summed orbital columns)` exactly, and each
atom-summed orbital column is itself the sum over the atoms' stored
columns: the `{s}={0}, {p}={1,2,3}, {d}={4..8}` fold is a strict
partition of the nine columns, so total weight is conserved. -/
theorem spd_conservation (st : SessionState) (nk : ℕ)
    (hwf : ∀ fs ∈ st.proj, fs ≠ [] ∧ ∀ f ∈ fs, FrameWF nk f)
    (b : ℕ) (hb : b < st.proj.length) (k : ℕ) (hk : k < nk)
    (V : List DFrame) (hV : (sum_spd st).1 = some V) :
    (dfColD (V.getD b []) (ColKey.str ("s"))).getD k 0
      + (dfColD (V.getD b []) (ColKey.str ("p"))).getD k 0
      + (dfColD (V.getD b []) (ColKey.str ("d"))).getD k 0
    = ((List.range 9).map (fun o =>
        (dfColD (dfFold (st.proj.getD b [])) (ColKey.num o)).getD k 0)).sum
    ∧ ∀ o ∈ List.range 9,
      (dfColD (dfFold (st.proj.getD b [])) (ColKey.num o)).getD k 0
        = ((st.proj.getD b []).map
            (fun f => (dfColD f (ColKey.num o)).getD k 0)).sum := by
  have hguard : st.proj.any (fun fs => fs.isEmpty) = false := by
    rw [List.any_eq_false]
    intro fs hfs
    simp [List.isEmpty_iff, (hwf fs hfs).1]
  have hVeq : V = st.proj.map (fun fs => dfDropOrb (spdFold (dfFold fs))) := by
    have hV2 : (if st.proj.any (fun fs => fs.isEmpty) then none
        else some (st.proj.map (fun fs => dfDropOrb (spdFold (dfFold fs)))))
        = some V := hV
    rw [hguard] at hV2
    simp at hV2
    exact hV2.symm
  have hfsmem : st.proj.getD b [] ∈ st.proj := getD_mem_of_lt _ _ hb _
  obtain ⟨hne, hWFall⟩ := hwf _ hfsmem
  obtain ⟨f, t, hft⟩ : ∃ f t, st.proj.getD b [] = f :: t := by
    cases hc : st.proj.getD b [] with
    | nil => exact absurd hc hne
    | cons f t => exact ⟨f, t, rfl⟩
  have hfold : dfFold (st.proj.getD b []) = t.foldl dfAdd f := by
    rw [hft]
    rfl
  have hfWF : FrameWF nk f := hWFall f (by rw [hft]; exact List.mem_cons_self _ _)
  have htWF : ∀ g ∈ t, FrameWF nk g :=
    fun g hg => hWFall g (by rw [hft]; exact List.mem_cons_of_mem _ hg)
  obtain ⟨hRWF, hRcol⟩ := dfFold_spec nk f t hfWF htWF
  have hVb : V.getD b [] = dfDropOrb (spdFold (dfFold (st.proj.getD b []))) := by
    rw [hVeq]
    exact getD_map_of_lt _ _ _ hb _ []
  have hcols : ∀ o : ℕ, o < 9 →
      (dfColD (dfFold (st.proj.getD b [])) (ColKey.num o)).length = nk := by
    intro o ho
    rw [hfold]
    exact dfColD_length nk _ hRWF _ (List.mem_map_of_mem _ (List.mem_range.mpr ho))
  have hdrop := dfDropOrb_spdFold (dfFold (st.proj.getD b []))
    (by rw [hfold]; exact hRWF.1)
  constructor
  · rw [hVb, hdrop, dfColD_three_s, dfColD_three_p, dfColD_three_d]
    rw [seriesAdd_getD _ _ k
        (by rw [seriesAdd_length _ _ (by rw [hcols 1 (by omega), hcols 2 (by omega)]),
          hcols 1 (by omega)]; exact hk)
        (by rw [hcols 3 (by omega)]; exact hk),
      seriesAdd_getD _ _ k (by rw [hcols 1 (by omega)]; exact hk)
        (by rw [hcols 2 (by omega)]; exact hk)]
    rw [seriesAdd_getD _ _ k ?h1 (by rw [hcols 8 (by omega)]; exact hk)]
    case h1 =>
      rw [seriesAdd_length, seriesAdd_length, seriesAdd_length,
        hcols 4 (by omega)]
      · exact hk
      · rw [hcols 4 (by omega), hcols 5 (by omega)]
      · rw [seriesAdd_length _ _ (by rw [hcols 4 (by omega), hcols 5 (by omega)]),
          hcols 4 (by omega), hcols 6 (by omega)]
      · rw [seriesAdd_length, seriesAdd_length _ _
            (by rw [hcols 4 (by omega), hcols 5 (by omega)]), hcols 4 (by omega)]
        · rw [hcols 7 (by omega)]
        · rw [seriesAdd_length _ _ (by rw [hcols 4 (by omega), hcols 5 (by omega)]),
            hcols 4 (by omega), hcols 6 (by omega)]
    rw [seriesAdd_getD _ _ k ?h2 (by rw [hcols 7 (by omega)]; exact hk)]
    case h2 =>
      rw [seriesAdd_length, seriesAdd_length _ _
          (by rw [hcols 4 (by omega), hcols 5 (by omega)]), hcols 4 (by omega)]
      · exact hk
      · rw [seriesAdd_length _ _ (by rw [hcols 4 (by omega), hcols 5 (by omega)]),
          hcols 4 (by omega), hcols 6 (by omega)]
    rw [seriesAdd_getD _ _ k ?h3 (by rw [hcols 6 (by omega)]; exact hk)]
    case h3 =>
      rw [seriesAdd_length _ _ (by rw [hcols 4 (by omega), hcols 5 (by omega)]),
        hcols 4 (by omega)]
      exact hk
    rw [seriesAdd_getD _ _ k (by rw [hcols 4 (by omega)]; exact hk)
      (by rw [hcols 5 (by omega)]; exact hk)]
    rw [show List.range 9 = [0, 1, 2, 3, 4, 5, 6, 7, 8] from rfl]
    simp only [List.map_cons, List.map_nil, List.sum_cons, List.sum_nil]
    ring
  · intro o ho
    rw [hfold, hRcol _ (List.mem_map_of_mem _ ho) k, hft]
    simp [List.map_cons, List.sum_cons]

/-- Witness for C2: the conservation identity evaluated on the concrete
one-band two-atom one-k-point state. -/
theorem spd_conservation_witness :
    (dfColD ((cState2.proj.map (fun fs => dfDropOrb (spdFold (dfFold fs)))).getD 0 [])
        (ColKey.str ("s"))).getD 0 0
      + (dfColD ((cState2.proj.map (fun fs => dfDropOrb (spdFold (dfFold fs)))).getD 0 [])
        (ColKey.str ("p"))).getD 0 0
      + (dfColD ((cState2.proj.map (fun fs => dfDropOrb (spdFold (dfFold fs)))).getD 0 [])
        (ColKey.str ("d"))).getD 0 0
    = ((List.range 9).map (fun o =>
        (dfColD (dfFold (cState2.proj.getD 0 [])) (ColKey.num o)).getD 0 0)).sum := by
  have h := spd_conservation cState2 1 (by decide) 0 (by decide) 0 (by decide)
    (cState2.proj.map (fun fs => dfDropOrb (spdFold (dfFold fs)))) rfl
  exact h.1

/-! ### Claim C5: ordinary-mode duplicate collapsing -/

/-- The matched sampled positions of a standard line-mode band run:
`m` segments of `n` samples each, the declared points sitting at the
first and last sample of each segment — positions
`0, n−1, n, 2n−1, 2n, …, mn−1`. -/
def stdMatches (m n : ℕ) : List ℕ :=
  (List.range (2 * m)).map
    (fun t => if t % 2 = 0 then (t / 2) * n else (t / 2 + 1) * n - 1)

/-- The odd indices below `2k` are `1, 3, …, 2k−1`. -/
theorem range_filter_odd (k : ℕ) :
    (List.range (2 * k)).filter (fun i => decide (i % 2 = 1))
      = (List.range k).map (fun j => 2 * j + 1) := by
  induction k with
  | zero => simp
  | succ k ih =>
    have h2 : 2 * (k + 1) = (2 * k + 1) + 1 := by omega
    rw [h2, List.range_succ, List.range_succ, List.filter_append,
      List.filter_append, ih]
    have ha : ([2 * k] : List ℕ).filter (fun i => decide (i % 2 = 1)) = [] := by
      simp [Nat.mul_mod_right]
    have hb : ([2 * k + 1] : List ℕ).filter (fun i => decide (i % 2 = 1))
        = [2 * k + 1] := by
      simp [Nat.mul_add_mod]
    rw [ha, hb, List.append_nil]
    rw [List.range_succ, List.map_append]
    rfl

/-- Fancy indexing `xs[index]` via `mapM get?` succeeds on in-range
indices and selects by position. -/
theorem mapM_get?_of_lt (ix : List ℕ) (l : List α) (d : α)
    (hix : ∀ i ∈ ix, i < l.length) :
    ix.mapM (fun i => l.get? i) = some (ix.map (fun i => l.getD i d)) := by
  induction ix with
  | nil => rfl
  | cons x xs ih =>
    rw [List.mapM_cons, get?_eq_some_getD l x (hix x (List.mem_cons_self _ _)) d,
      ih (fun i hi => hix i (List.mem_cons_of_mem _ hi))]
    rfl

/-- Value of the standard matched-position list at index `t`. -/
theorem stdMatches_getD (m n t : ℕ) (ht : t < 2 * m) :
    (stdMatches m n).getD t 0
      = if t % 2 = 0 then (t / 2) * n else (t / 2 + 1) * n - 1 := by
  unfold stdMatches
  rw [getD_map_of_lt _ _ _ (by simpa using ht) _ 0]
  have hr : (List.range (2 * m)).getD t 0 = t := by
    rw [List.getD_eq_getElem _ _ (by simpa using ht)]
    simp
  rw [hr]

/-- Claim C5 (amended): for a declared list in VASP line-mode form — `m`
segments, every interior high-symmetry point appearing as a consecutive
duplicate pair, adjacent distinct — and sampled matches in the standard
positions, `get_kticks` collapses each duplicate pair into a single
boundary: it emits exactly `m + 1` boundaries, the interior one for the
`j`-th junction carrying the label declared at index `2j − 1` (the first
copy of the duplicated point) and position `jn − 1 + 0.5` (its sample
index plus the interior offset), terminals at positions `0` and
`mn − 1`. -/
theorem kticks_dedup_linemode (s : Session) (m n : ℕ) (hm : 1 ≤ m)
    (hL : s.data.kpts.length = 2 * m)
    (hdup : ∀ j < m, 1 ≤ j →
      s.data.kpts.getD (2 * j - 1) (0, 0, 0) = s.data.kpts.getD (2 * j) (0, 0, 0))
    (hne : ∀ j < m,
      s.data.kpts.getD (2 * j) (0, 0, 0) ≠ s.data.kpts.getD (2 * j + 1) (0, 0, 0))
    (hlabs : s.data.kpts_labels.length = 2 * m)
    (hmatch : matchedPositions s.data.actual_kpoints s.data.kpts = stdMatches m n) :
    get_kticks s = some
      ((0 : ℚ) :: (((List.range (m - 1)).map
          (fun (j : ℕ) => (((j + 1) * n - 1 : ℕ) : ℚ) + 1 / 2))
        ++ [((m * n - 1 : ℕ) : ℚ)]),
       wrapLabel (s.data.kpts_labels.getD 0 (""))
         :: (((List.range (m - 1)).map
            (fun j => wrapLabel (s.data.kpts_labels.getD (2 * j + 1) "")))
          ++ [wrapLabel (s.data.kpts_labels.getD (2 * m - 1) "")])) := by
  have hidx : dedupIndex s.data.kpts
      = 0 :: ((List.range (m - 1)).map (fun j => 2 * j + 1) ++ [2 * m - 1]) := by
    unfold dedupIndex
    rw [hL]
    have h22 : 2 * m - 2 = 2 * (m - 1) := by omega
    rw [h22]
    have hfc : ∀ i ∈ List.range (2 * (m - 1)),
        (decide (s.data.kpts.getD (i + 2) (0, 0, 0)
            ≠ s.data.kpts.getD (i + 1) (0, 0, 0)))
          = decide (i % 2 = 1) := by
      intro i hi
      simp only [List.mem_range] at hi
      rcases Nat.even_or_odd i with he | ho
      · obtain ⟨j, hj⟩ := he
        have heq : s.data.kpts.getD (i + 2) (0, 0, 0)
            = s.data.kpts.getD (i + 1) (0, 0, 0) := by
          rw [show i + 2 = 2 * (j + 1) by omega, show i + 1 = 2 * (j + 1) - 1 by omega]
          exact (hdup (j + 1) (by omega) (by omega)).symm
        have h1 : (decide (s.data.kpts.getD (i + 2) (0, 0, 0)
            ≠ s.data.kpts.getD (i + 1) (0, 0, 0))) = false :=
          decide_eq_false (fun hcon => hcon heq)
        have h2 : decide (i % 2 = 1) = false := by
          simp only [decide_eq_false_iff_not]
          omega
        rw [h1, h2]
      · obtain ⟨j, hj⟩ := ho
        have hne2 : s.data.kpts.getD (i + 2) (0, 0, 0)
            ≠ s.data.kpts.getD (i + 1) (0, 0, 0) := by
          rw [show i + 2 = 2 * (j + 1) + 1 by omega, show i + 1 = 2 * (j + 1) by omega]
          exact (hne (j + 1) (by omega)).symm
        have h1 : (decide (s.data.kpts.getD (i + 2) (0, 0, 0)
            ≠ s.data.kpts.getD (i + 1) (0, 0, 0))) = true :=
          decide_eq_true hne2
        have h2 : decide (i % 2 = 1) = true := by
          simp only [decide_eq_true_eq]
          omega
        rw [h1, h2]
    rw [List.filter_congr hfc, range_filter_odd]
  have hbound : ∀ i ∈ dedupIndex s.data.kpts, i < 2 * m := by
    rw [hidx]
    intro i hi
    rcases List.mem_cons.mp hi with h | h
    · omega
    rcases List.mem_append.mp h with h2 | h2
    · obtain ⟨j, hj, hij⟩ := List.mem_map.mp h2
      simp only [List.mem_range] at hj
      omega
    · simp only [List.mem_singleton] at h2
      omega
  unfold get_kticks
  rw [hmatch]
  rw [mapM_get?_of_lt (dedupIndex s.data.kpts) (s.data.kpts_labels.map wrapLabel) ""
    (by intro i hi; rw [List.length_map, hlabs]; exact hbound i hi)]
  rw [Option.some_bind]
  rw [mapM_get?_of_lt (dedupIndex s.data.kpts) (stdMatches m n) 0
    (by intro i hi
        unfold stdMatches
        rw [List.length_map, List.length_range]
        exact hbound i hi)]
  rw [Option.map_some']
  have hLab : (dedupIndex s.data.kpts).map
        (fun i => (s.data.kpts_labels.map wrapLabel).getD i (""))
      = wrapLabel (s.data.kpts_labels.getD 0 (""))
        :: (((List.range (m - 1)).map
            (fun j => wrapLabel (s.data.kpts_labels.getD (2 * j + 1) "")))
          ++ [wrapLabel (s.data.kpts_labels.getD (2 * m - 1) "")]) := by
    have hc : ∀ i ∈ dedupIndex s.data.kpts,
        (s.data.kpts_labels.map wrapLabel).getD i ("")
          = wrapLabel (s.data.kpts_labels.getD i ("")) := by
      intro i hi
      exact getD_map_of_lt _ _ _ (by rw [hlabs]; exact hbound i hi) "" ""
    rw [List.map_congr_left hc, hidx, List.map_cons, List.map_append, List.map_map]
    rfl
  have hPosN : (dedupIndex s.data.kpts).map (fun i => (stdMatches m n).getD i 0)
      = 0 :: ((List.range (m - 1)).map (fun j => (j + 1) * n - 1) ++ [m * n - 1]) := by
    have hc : ∀ i ∈ dedupIndex s.data.kpts,
        (stdMatches m n).getD i 0
          = if i % 2 = 0 then (i / 2) * n else (i / 2 + 1) * n - 1 := by
      intro i hi
      exact stdMatches_getD m n i (hbound i hi)
    rw [List.map_congr_left hc, hidx, List.map_cons, List.map_append, List.map_map]
    have hhead : (if 0 % 2 = 0 then (0 / 2) * n else (0 / 2 + 1) * n - 1) = 0 := by
      norm_num
    have hmid : List.map ((fun i =>
          if i % 2 = 0 then (i / 2) * n else (i / 2 + 1) * n - 1) ∘ fun j => 2 * j + 1)
        (List.range (m - 1))
        = List.map (fun j => (j + 1) * n - 1) (List.range (m - 1)) := by
      apply List.map_congr_left
      intro j _
      simp only [Function.comp_apply]
      rw [if_neg (by omega)]
      have hdiv : (2 * j + 1) / 2 = j := by omega
      rw [hdiv]
    have hlast : List.map (fun i =>
          if i % 2 = 0 then (i / 2) * n else (i / 2 + 1) * n - 1) [2 * m - 1]
        = [m * n - 1] := by
      rw [List.map_cons, List.map_nil, if_neg (by omega)]
      have hdiv : (2 * m - 1) / 2 = m - 1 := by omega
      rw [hdiv, show m - 1 + 1 = m by omega]
    rw [hhead, hmid, hlast]
  rw [hLab, hPosN]
  have hcast : ((0 : ℕ) :: ((List.range (m - 1)).map (fun j => (j + 1) * n - 1)
        ++ [m * n - 1])).map (fun (v : ℕ) => (v : ℚ))
      = (0 : ℚ) :: (((List.range (m - 1)).map
          (fun (j : ℕ) => (((j + 1) * n - 1 : ℕ) : ℚ))) ++ [((m * n - 1 : ℕ) : ℚ)]) := by
    rw [List.map_cons, List.map_append, List.map_map]
    simp
  rw [hcast, applyOffsets_structure, List.map_map]
  rfl

/-- Concrete declared high-symmetry points for the ordinary-mode
tick-resolver instances. -/
def cPtA : Point := (0, 0, 0)

/-- Second concrete high-symmetry point. -/
def cPtB : Point := (1, 0, 0)

/-- Third concrete high-symmetry point. -/
def cPtC : Point := (2, 0, 0)

/-- Fourth concrete high-symmetry point. -/
def cPtD : Point := (3, 0, 0)

/-- A proper line-mode declared path `A–B | B–C` (interior point `B`
duplicated), sampled with 2 points per segment. -/
def cLineData : VaspData where
  eigen_up := []
  eigen_down := []
  proj_up := []
  proj_down := []
  efermi := 0
  natoms := []
  site_symbols := []
  kpts := [cPtA, cPtB, cPtB, cPtC]
  kpts_labels := ["A", "B", "B", "C"]
  actual_kpoints := [cPtA, cPtB, cPtB, cPtC]

/-- Session over the proper line-mode path. -/
def cLineSession : Session := mkSession cLineData true false ("up") "" 0

/-- Witness for C5 (amended): on the concrete line-mode path with
`m = 2` segments and `n = 2` samples per segment, the duplicate `B` is
collapsed into one boundary with label `$B$`. -/
theorem kticks_dedup_linemode_witness :
    get_kticks cLineSession = some
      ((0 : ℚ) :: (((List.range (2 - 1)).map
          (fun (j : ℕ) => (((j + 1) * 2 - 1 : ℕ) : ℚ) + 1 / 2))
        ++ [((2 * 2 - 1 : ℕ) : ℚ)]),
       wrapLabel (cLineSession.data.kpts_labels.getD 0 (""))
         :: (((List.range (2 - 1)).map
            (fun j => wrapLabel (cLineSession.data.kpts_labels.getD (2 * j + 1) "")))
          ++ [wrapLabel (cLineSession.data.kpts_labels.getD (2 * 2 - 1) "")])) :=
  kticks_dedup_linemode cLineSession 2 2 (by decide) (by decide) (by decide)
    (by decide) (by decide) (by decide)

/-- A declared list that contains the consecutive duplicate `B, B` but is
not in fully-doubled line-mode form (the trailing points `C, D` are
single). -/
def cBadData : VaspData where
  eigen_up := []
  eigen_down := []
  proj_up := []
  proj_down := []
  efermi := 0
  natoms := []
  site_symbols := []
  kpts := [cPtA, cPtB, cPtB, cPtC, cPtD]
  kpts_labels := ["A", "B", "B", "C", "D"]
  actual_kpoints := [cPtA, cPtB, cPtB, cPtC, cPtC, cPtD]

/-- Session over the malformed declared path. -/
def cBadSession : Session := mkSession cBadData true false ("up") "" 0

/-- Counterexample to C5 as stated: this declared list contains one
consecutive duplicate pair (`B` at positions 1 and 2), yet the resolver
emits `B`'s boundary twice (labels `$A$, $B$, $B$, $D$` — two adjacent
boundaries for the duplicated point, and the label `$C$` lost), not a
single collapsed boundary. -/
theorem kticks_dedup_counterexample :
    (get_kticks cBadSession).map (fun pr => pr.2)
        = some ["$A$", "$B$", "$B$", "$D$"]
    ∧ (get_kticks cBadSession).map (fun pr => pr.2.count ("$B$")) = some 2 := by
  constructor <;> decide

end Vaspvis
